import Mathlib

/-!
# Verification of the htier-pubsub application core

Shallow embedding of `src/crypto.rs` and `src/server.rs`: byte sequences are
`List Nat` (each element a `u8` value), Unicode scalar values are `Nat`,
strings are Lean `String`.  Fallible operations return `Except String`.
The entropy source (`ring::rand::SystemRandom::fill`) is modelled as an
oracle `Nat → Option (List Nat)` giving, for a requested buffer length, the
filled buffer (or `none` when the entropy source fails).
-/

set_option maxHeartbeats 1000000

namespace Utf8

/-- A byte in the UTF-8 continuation range `0x80 ..= 0xBF`. -/
def isCont (b : Nat) : Bool := 0x80 ≤ b && b ≤ 0xBF

/-- Valid second byte of a three-byte sequence headed by `b1`
(`0xE0` needs `0xA0..=0xBF`, `0xED` needs `0x80..=0x9F`, rest continuation). -/
def cont3 (b1 b2 : Nat) : Bool :=
  if b1 = 0xE0 then 0xA0 ≤ b2 && b2 ≤ 0xBF
  else if b1 = 0xED then 0x80 ≤ b2 && b2 ≤ 0x9F
  else isCont b2

/-- Valid second byte of a four-byte sequence headed by `b1`
(`0xF0` needs `0x90..=0xBF`, `0xF4` needs `0x80..=0x8F`, rest continuation). -/
def cont4 (b1 b2 : Nat) : Bool :=
  if b1 = 0xF0 then 0x90 ≤ b2 && b2 ≤ 0xBF
  else if b1 = 0xF4 then 0x80 ≤ b2 && b2 ≤ 0x8F
  else isCont b2

/-- One step of Rust's `String::from_utf8_lossy` on a non-empty input
`b1 :: t1`: the emitted scalar value (U+FFFD when the input does not start
with a well-formed sequence), the remaining input (consuming the well-formed
sequence, or the maximal valid prefix of an ill-formed one, resuming at the
first unexpected byte), and whether the consumed prefix was well-formed. -/
def step (b1 : Nat) (t1 : List Nat) : Nat × List Nat × Bool :=
  if b1 ≤ 0x7F then (b1, t1, true)
  else if 0xC2 ≤ b1 ∧ b1 ≤ 0xDF then
    match t1 with
    | [] => (0xFFFD, [], false)
    | b2 :: t2 =>
      if isCont b2 then ((b1 % 0x20) * 0x40 + b2 % 0x40, t2, true)
      else (0xFFFD, b2 :: t2, false)
  else if 0xE0 ≤ b1 ∧ b1 ≤ 0xEF then
    match t1 with
    | [] => (0xFFFD, [], false)
    | b2 :: t2 =>
      if cont3 b1 b2 then
        match t2 with
        | [] => (0xFFFD, [], false)
        | b3 :: t3 =>
          if isCont b3 then
            ((b1 % 0x10) * 0x1000 + (b2 % 0x40) * 0x40 + b3 % 0x40, t3, true)
          else (0xFFFD, b3 :: t3, false)
      else (0xFFFD, b2 :: t2, false)
  else if 0xF0 ≤ b1 ∧ b1 ≤ 0xF4 then
    match t1 with
    | [] => (0xFFFD, [], false)
    | b2 :: t2 =>
      if cont4 b1 b2 then
        match t2 with
        | [] => (0xFFFD, [], false)
        | b3 :: t3 =>
          if isCont b3 then
            match t3 with
            | [] => (0xFFFD, [], false)
            | b4 :: t4 =>
              if isCont b4 then
                ((b1 % 0x8) * 0x40000 + (b2 % 0x40) * 0x1000 +
                  (b3 % 0x40) * 0x40 + b4 % 0x40, t4, true)
              else (0xFFFD, b4 :: t4, false)
          else (0xFFFD, b3 :: t3, false)
      else (0xFFFD, b2 :: t2, false)
  else (0xFFFD, t1, false)

/-- Lossy UTF-8 decoding of a byte sequence into Unicode scalar values,
following Rust's `String::from_utf8_lossy`: each maximal valid prefix of an
ill-formed subsequence is replaced by one U+FFFD, decoding resumes at the
first unexpected byte. -/
def decodeLossy : List Nat → List Nat
  | [] => []
  | b1 :: t1 => (step b1 t1).1 :: decodeLossy (step b1 t1).2.1
termination_by bs => bs.length
decreasing_by
  simp only [List.length_cons]
  refine Nat.lt_succ_of_le ?_
  unfold step
  repeat' split
  all_goals simp_all [List.length_cons]
  all_goals omega

/-- Well-formedness of a byte sequence as UTF-8: every `step` consumes a
well-formed sequence. -/
def validUtf8 : List Nat → Bool
  | [] => true
  | b1 :: t1 => (step b1 t1).2.2 && validUtf8 (step b1 t1).2.1
termination_by bs => bs.length
decreasing_by
  simp only [List.length_cons]
  refine Nat.lt_succ_of_le ?_
  unfold step
  repeat' split
  all_goals simp_all [List.length_cons]
  all_goals omega

/-- Predicate: `c` is a Unicode scalar value (in range, not a surrogate). -/
def isScalar (c : Nat) : Bool := c < 0x110000 && !(0xD800 ≤ c && c ≤ 0xDFFF)

/-- UTF-8 encoding of a single Unicode scalar value. -/
def encodeChar (c : Nat) : List Nat :=
  if c ≤ 0x7F then [c]
  else if c ≤ 0x7FF then [0xC0 + c / 0x40, 0x80 + c % 0x40]
  else if c ≤ 0xFFFF then
    [0xE0 + c / 0x1000, 0x80 + (c / 0x40) % 0x40, 0x80 + c % 0x40]
  else
    [0xF0 + c / 0x40000, 0x80 + (c / 0x1000) % 0x40,
      0x80 + (c / 0x40) % 0x40, 0x80 + c % 0x40]

/-- UTF-8 encoding of a sequence of scalar values. -/
def encode : List Nat → List Nat
  | [] => []
  | c :: cs => encodeChar c ++ encode cs

end Utf8

namespace Base64

/-- The standard base64 alphabet used by `base64::engine::general_purpose::STANDARD`. -/
def alphabet : List Char :=
  "ABCDEFGHIJKLMNOPQRSTUVWXYZabcdefghijklmnopqrstuvwxyz0123456789+/".data

/-- Alphabet lookup for a 6-bit group. -/
def b64Char (n : Nat) : Char := alphabet.getD n 'A'

/-- Standard padded base64 encoding of a byte sequence, three bytes at a time. -/
def encodeB64 : List Nat → List Char
  | [] => []
  | [b1] => [b64Char (b1 / 4), b64Char (b1 % 4 * 16), '=', '=']
  | [b1, b2] =>
    [b64Char (b1 / 4), b64Char (b1 % 4 * 16 + b2 / 16), b64Char (b2 % 16 * 4), '=']
  | b1 :: b2 :: b3 :: rest =>
    b64Char (b1 / 4) :: b64Char (b1 % 4 * 16 + b2 / 16) ::
      b64Char (b2 % 16 * 4 + b3 / 64) :: b64Char (b3 % 64) :: encodeB64 rest

end Base64

namespace Hex

/-- Lowercase hex digit for a 4-bit group (as produced by `hex::encode`). -/
def hexDigit (n : Nat) : Char := "0123456789abcdef".data.getD n '0'

/-- Lowercase hex encoding of a byte sequence, two digits per byte. -/
def hexOfBytes : List Nat → List Char
  | [] => []
  | b :: t => hexDigit (b / 16) :: hexDigit (b % 16) :: hexOfBytes t

end Hex

namespace SHA256

/-- The constant `2^32`, the modulus of 32-bit machine arithmetic. -/
def M32 : Nat := 4294967296

/-- Right rotation of a 32-bit word by `n` bits. -/
def rotr (n x : Nat) : Nat := x / 2 ^ n + x % 2 ^ n * 2 ^ (32 - n)

/-- 32-bit bitwise complement. -/
def not32 (x : Nat) : Nat := 4294967295 ^^^ (x % M32)

/-- SHA-256 choice function. -/
def ch (e f g : Nat) : Nat := (e &&& f) ^^^ (not32 e &&& g)

/-- SHA-256 majority function. -/
def maj (a b c : Nat) : Nat := (a &&& b) ^^^ (a &&& c) ^^^ (b &&& c)

/-- Σ0 compression-round function. -/
def bigS0 (x : Nat) : Nat := rotr 2 x ^^^ rotr 13 x ^^^ rotr 22 x

/-- Σ1 compression-round function. -/
def bigS1 (x : Nat) : Nat := rotr 6 x ^^^ rotr 11 x ^^^ rotr 25 x

/-- σ0 message-schedule function. -/
def smallS0 (x : Nat) : Nat := rotr 7 x ^^^ rotr 18 x ^^^ (x >>> 3)

/-- σ1 message-schedule function. -/
def smallS1 (x : Nat) : Nat := rotr 17 x ^^^ rotr 19 x ^^^ (x >>> 10)

/-- The 64 SHA-256 round constants of FIPS 180-4 (decimal). -/
def K : List Nat :=
  [1116352408, 1899447441, 3049323471, 3921009573, 961987163,
   1508970993, 2453635748, 2870763221, 3624381080, 310598401,
   607225278, 1426881987, 1925078388, 2162078206, 2614888103,
   3248222580, 3835390401, 4022224774, 264347078, 604807628,
   770255983, 1249150122, 1555081692, 1996064986, 2554220882,
   2821834349, 2952996808, 3210313671, 3336571891, 3584528711,
   113926993, 338241895, 666307205, 773529912, 1294757372,
   1396182291, 1695183700, 1986661051, 2177026350, 2456956037,
   2730485921, 2820302411, 3259730800, 3345764771, 3516065817,
   3600352804, 4094571909, 275423344, 430227734, 506948616,
   659060556, 883997877, 958139571, 1322822218, 1537002063,
   1747873779, 1955562222, 2024104815, 2227730452, 2361852424,
   2428436474, 2756734187, 3204031479, 3329325298]

/-- The eight 32-bit words of the hash state. -/
structure Hash8 where
  a : Nat
  b : Nat
  c : Nat
  d : Nat
  e : Nat
  f : Nat
  g : Nat
  h : Nat

/-- SHA-256 initial hash value of FIPS 180-4 (decimal). -/
def initH : Hash8 :=
  ⟨1779033703, 3144134277, 1013904242, 2773480762,
   1359893119, 2600822924, 528734635, 1541459225⟩

/-- Big-endian byte decomposition of `x` into `k` bytes. -/
def toBytesBE : Nat → Nat → List Nat
  | 0, _ => []
  | k + 1, x => toBytesBE k (x / 256) ++ [x % 256]

/-- SHA-256 padding: append `0x80`, zeros, and the 64-bit big-endian bit length,
reaching a multiple of 64 bytes. -/
def padMessage (msg : List Nat) : List Nat :=
  let l := msg.length
  msg ++ 0x80 :: (List.replicate ((64 - (l + 9) % 64) % 64) 0 ++ toBytesBE 8 (l * 8))

/-- Group bytes into big-endian 32-bit words. -/
def wordsOfBytes : List Nat → List Nat
  | b1 :: b2 :: b3 :: b4 :: rest =>
    (b1 * 0x1000000 + b2 * 0x10000 + b3 * 0x100 + b4) :: wordsOfBytes rest
  | _ => []

/-- Extend the message schedule by `n` further words. -/
def extendW (ws : List Nat) : Nat → List Nat
  | 0 => ws
  | n + 1 =>
    let i := ws.length
    extendW (ws ++ [(smallS1 (ws.getD (i - 2) 0) + ws.getD (i - 7) 0 +
      smallS0 (ws.getD (i - 15) 0) + ws.getD (i - 16) 0) % M32]) n

/-- One compression round, consuming a `(round constant, schedule word)` pair. -/
def step (s : Hash8) (kw : Nat × Nat) : Hash8 :=
  let t1 := (s.h + bigS1 s.e + ch s.e s.f s.g + kw.1 + kw.2) % M32
  let t2 := (bigS0 s.a + maj s.a s.b s.c) % M32
  ⟨(t1 + t2) % M32, s.a, s.b, s.c, (s.d + t1) % M32, s.e, s.f, s.g⟩

/-- Compress one 64-byte block into the running hash state. -/
def processBlock (s : Hash8) (block : List Nat) : Hash8 :=
  let w := extendW (wordsOfBytes block) 48
  let t := (K.zip w).foldl step s
  ⟨(s.a + t.a) % M32, (s.b + t.b) % M32, (s.c + t.c) % M32, (s.d + t.d) % M32,
   (s.e + t.e) % M32, (s.f + t.f) % M32, (s.g + t.g) % M32, (s.h + t.h) % M32⟩

/-- Split a byte sequence into successive 64-byte blocks (fuel-driven so that
the recursion is structural; the fuel is the list length, enough since every
step consumes at least one byte). -/
def chunks64Go : Nat → List Nat → List (List Nat)
  | 0, _ => []
  | _, [] => []
  | fuel + 1, b :: t => (b :: t).take 64 :: chunks64Go fuel ((b :: t).drop 64)

/-- Split a byte sequence into successive 64-byte blocks. -/
def chunks64 (l : List Nat) : List (List Nat) := chunks64Go l.length l

/-- Serialize the final state as 32 big-endian digest bytes. -/
def digestBytes (s : Hash8) : List Nat :=
  toBytesBE 4 s.a ++ toBytesBE 4 s.b ++ toBytesBE 4 s.c ++ toBytesBE 4 s.d ++
  toBytesBE 4 s.e ++ toBytesBE 4 s.f ++ toBytesBE 4 s.g ++ toBytesBE 4 s.h

/-- Full SHA-256: pad, compress each block, serialize the digest. -/
def sha256Bytes (msg : List Nat) : List Nat :=
  digestBytes ((chunks64 (padMessage msg)).foldl processBlock initH)

end SHA256

namespace Crypto

/-- Entropy oracle: for a requested buffer length, the buffer
`ring::rand::SystemRandom::fill` produced, or `none` when the entropy source
fails.  (The buffer `vec![0u8; len]` filled in place always has length `len`;
theorems that need this state it as a hypothesis on the oracle's output.) -/
def Rng : Type := Nat → Option (List Nat)

/-- Source `Crypto::generate_random_bytes`: fill a fresh buffer from the entropy
source, mapping an entropy failure into an error value. -/
def generate_random_bytes (rng : Rng) (len : Nat) : Except String (List Nat) :=
  match rng len with
  | some bytes => .ok bytes
  | none => .error "Random generation failed"

/-- Source `Crypto::generate_random_hex`: hex encoding of `len` random bytes. -/
def generate_random_hex (rng : Rng) (len : Nat) : Except String String :=
  (generate_random_bytes rng len).map fun bytes => ⟨Hex.hexOfBytes bytes⟩

/-- Source `Crypto::generate_random_base64`: standard padded base64 encoding of `len`
random bytes. -/
def generate_random_base64 (rng : Rng) (len : Nat) : Except String String :=
  (generate_random_bytes rng len).map fun bytes => ⟨Base64.encodeB64 bytes⟩

/-- Source `Crypto::sha256`: hex-encoded SHA-256 digest of a byte sequence. -/
def sha256 (data : List Nat) : String := ⟨Hex.hexOfBytes (SHA256.sha256Bytes data)⟩

/-- Source `Crypto::sha256_string`: SHA-256 of the UTF-8 bytes of a string. -/
def sha256_string (data : String) : String :=
  sha256 (Utf8.encode (data.data.map Char.toNat))

/-- HMAC-SHA256 key normalization: hash keys longer than the 64-byte block,
then right-pad with zeros to the block size. -/
def blockKey (key : List Nat) : List Nat :=
  let k0 := if 64 < key.length then SHA256.sha256Bytes key else key
  k0 ++ List.replicate (64 - k0.length) 0

/-- Raw HMAC-SHA256 (`ring::hmac` with `HMAC_SHA256`): nested hash over the
ipad/opad-masked block key. -/
def hmacBytes (key data : List Nat) : List Nat :=
  let k0 := blockKey key
  SHA256.sha256Bytes ((k0.map fun b => b ^^^ 0x5C) ++
    SHA256.sha256Bytes ((k0.map fun b => b ^^^ 0x36) ++ data))

/-- Source `Crypto::hmac_sha256`: hex-encoded MAC, wrapped in `Ok` (the `ring` sign
path is infallible, so the source always returns the `Ok` branch). -/
def hmac_sha256 (key data : List Nat) : Except String String :=
  .ok ⟨Hex.hexOfBytes (hmacBytes key data)⟩

/-- Source `Crypto::verify_hmac_sha256`: recompute the MAC and compare for string
equality with `expected`. -/
def verify_hmac_sha256 (key data : List Nat) (expected : String) :
    Except String Bool :=
  (hmac_sha256 key data).map fun computed => computed == expected

/-- Source `Crypto::generate_token`: base64-encode `length` random bytes, then keep
only the first `length` characters of the encoded string. -/
def generate_token (rng : Rng) (length : Nat) : Except String String :=
  (generate_random_bytes rng length).map fun bytes =>
    ⟨(Base64.encodeB64 bytes).take length⟩

end Crypto

namespace Server

/-- The `ApiResponse` envelope serialized by every handler. -/
structure ApiResponse (α : Type) where
  success : Bool
  data : Option α
  error : Option String
deriving DecidableEq

/-- An HTTP reply: `warp::reply::json` produces status 200 OK;
`warp::reply::with_status` overrides the status code. -/
structure Reply (α : Type) where
  status : Nat
  body : ApiResponse α
deriving DecidableEq

/-- Modeling of `warp::reply::json` on an envelope. -/
def replyJson {α : Type} (body : ApiResponse α) : Reply α := ⟨200, body⟩

/-- Modeling of `warp::reply::with_status` on a JSON reply. -/
def withStatus {α : Type} (r : Reply α) (code : Nat) : Reply α :=
  { r with status := code }

/-- The `CryptoRequest` body of `POST /crypto`. -/
structure CryptoRequest where
  operation : String
  data : Option String
  length : Option Nat

/-- The `CryptoResponse` success payload. -/
structure CryptoResponse where
  result : String
  operation : String
deriving DecidableEq

/-- The `HealthResponse` payload of `GET /health`. -/
structure HealthResponse where
  status : String
  timestamp : Nat
  version : String
deriving DecidableEq

/-- The shared key-value map `AppState.data` (a `HashMap<String, String>`;
values are kept as the scalar-value sequences of the stored strings). -/
def Store : Type := String → Option (List Nat)

/-- The empty map of `AppState::new`. -/
def emptyStore : Store := fun _ => none

/-- Source `HashMap::insert`: point update of the map. -/
def insertStore (st : Store) (key : String) (val : List Nat) : Store :=
  fun k => if k = key then some val else st k

/-- The health-check route: constant healthy envelope around the current
timestamp and package version. -/
def handle_health (now : Nat) (version : String) : Reply HealthResponse :=
  replyJson ⟨true, some ⟨"healthy", now, version⟩, none⟩

/-- The `let result = match req.operation.as_str() { ... }` dispatch inside
`handle_crypto_operation`. -/
def cryptoResult (rng : Crypto.Rng) (req : CryptoRequest) : Except String String :=
  if req.operation = "random_hex" then
    Crypto.generate_random_hex rng (req.length.getD 16)
  else if req.operation = "random_base64" then
    Crypto.generate_random_base64 rng (req.length.getD 16)
  else if req.operation = "sha256" then
    match req.data with
    | some data => .ok (Crypto.sha256_string data)
    | none => .error "No data provided for hash"
  else if req.operation = "token" then
    Crypto.generate_token rng (req.length.getD 32)
  else .error ("Unknown operation: " ++ req.operation)

/-- Source `handle_crypto_operation`: run the dispatched operation and wrap the
outcome in the uniform envelope (success with a `CryptoResponse`, or failure
with the error's message). -/
def handle_crypto_operation (rng : Crypto.Rng) (req : CryptoRequest) :
    Reply CryptoResponse :=
  match cryptoResult rng req with
  | .ok result => replyJson ⟨true, some ⟨result, req.operation⟩, none⟩
  | .error e => replyJson ⟨false, none, some e⟩

/-- Source `handle_store_data`: store the lossy UTF-8 decoding of the raw body under
the path key, answer with a success envelope. -/
def handle_store_data (key : String) (data : List Nat) (state : Store) :
    Store × Reply String :=
  let data_str := Utf8.decodeLossy data
  (insertStore state key data_str,
    replyJson ⟨true, some ("Data stored for key: " ++ key), none⟩)

/-- Source `handle_get_data`: look the key up; success envelope with the stored
value, or failure envelope when the key is absent. -/
def handle_get_data (key : String) (state : Store) : Reply (List Nat) :=
  match state key with
  | some data => replyJson ⟨true, some data, none⟩
  | none => replyJson ⟨false, none, some ("No data found for key: " ++ key)⟩

/-- The rejection cases distinguished by `handle_rejection`. -/
inductive Rejection : Type
  | notFound : Rejection
  | bodyDeserializeError : Rejection
  | other : Rejection
deriving DecidableEq

/-- Source `handle_rejection`: map a rejection to a status code and generic message,
and attach the status to the failure envelope. -/
def handle_rejection (err : Rejection) : Reply Unit :=
  let cm : Nat × String :=
    match err with
    | .notFound => (404, "Not Found")
    | .bodyDeserializeError => (400, "Invalid JSON")
    | .other => (500, "Internal Server Error")
  withStatus (replyJson ⟨false, none, some cm.2⟩) cm.1

end Server

/-- The envelope invariant: a successful envelope carries a payload and no
error message, a failed envelope carries an error message and no payload. -/
def envelopeOkB {α : Type} (r : Server.ApiResponse α) : Bool :=
  if r.success then r.data.isSome && r.error.isNone
  else r.error.isSome && r.data.isNone


/-- A character of `hex::encode` output: a lowercase hexadecimal digit. -/
def isLowerHexDigit (c : Char) : Bool := "0123456789abcdef".data.contains c

theorem step_length (b1 : Nat) (t1 : List Nat) :
    (Utf8.step b1 t1).2.1.length ≤ t1.length := by
  unfold Utf8.step
  repeat' split
  all_goals simp_all [List.length_cons]
  all_goals omega

theorem hexDigit_isLowerHex : ∀ n < 16, isLowerHexDigit (Hex.hexDigit n) = true := by
  decide

theorem length_hexOfBytes (bs : List Nat) :
    (Hex.hexOfBytes bs).length = 2 * bs.length := by
  induction bs with
  | nil => rfl
  | cons b t ih => simp [Hex.hexOfBytes, ih]; omega

theorem hexOfBytes_all_hex (bs : List Nat) (h : ∀ b ∈ bs, b < 256) :
    (Hex.hexOfBytes bs).all isLowerHexDigit = true := by
  induction bs with
  | nil => rfl
  | cons b t ih =>
    have hb : b < 256 := h b (List.mem_cons_self b t)
    simp only [Hex.hexOfBytes, List.all_cons, Bool.and_eq_true]
    exact ⟨hexDigit_isLowerHex _ (by omega),
      hexDigit_isLowerHex _ (by omega),
      ih fun x hx => h x (List.mem_cons_of_mem b hx)⟩

theorem toBytesBE_length (k : Nat) : ∀ x, (SHA256.toBytesBE k x).length = k := by
  induction k with
  | zero => intro x; rfl
  | succ k ih => intro x; simp [SHA256.toBytesBE, ih]

theorem toBytesBE_lt (k : Nat) : ∀ x, ∀ b ∈ SHA256.toBytesBE k x, b < 256 := by
  induction k with
  | zero => intro x b hb; simp [SHA256.toBytesBE] at hb
  | succ k ih =>
    intro x b hb
    simp only [SHA256.toBytesBE, List.mem_append, List.mem_singleton] at hb
    rcases hb with hb | hb
    · exact ih _ b hb
    · omega

theorem digestBytes_length (s : SHA256.Hash8) : (SHA256.digestBytes s).length = 32 := by
  simp [SHA256.digestBytes, toBytesBE_length]

theorem digestBytes_lt (s : SHA256.Hash8) : ∀ b ∈ SHA256.digestBytes s, b < 256 := by
  intro b hb
  simp only [SHA256.digestBytes, List.mem_append] at hb
  rcases hb with ((((((h | h) | h) | h) | h) | h) | h) | h <;> exact toBytesBE_lt 4 _ b h

theorem encodeB64_length (bs : List Nat) :
    (Base64.encodeB64 bs).length = 4 * ((bs.length + 2) / 3) := by
  match bs with
  | [] => rfl
  | [_] => simp [Base64.encodeB64]
  | [_, _] => simp [Base64.encodeB64]
  | b1 :: b2 :: b3 :: rest =>
    have ih := encodeB64_length rest
    simp only [Base64.encodeB64, List.length_cons, ih]
    omega
termination_by bs.length

/-- C3 (amended): `sha256_string "hello world"` equals the canonical 64-hex-char
NIST vector `b94d…cde9` (the spec's quoted vector is missing its final
character), and for every byte-sequence input the output is exactly 64
lowercase hexadecimal characters, with no failure mode. -/
theorem sha256_hello_world_and_shape :
    Crypto.sha256_string "hello world" =
      "b94d27b9934d3e08a52e52d7da7dabfac484efe37a5380ee9088f7ace2efcde9"
    ∧ ∀ data : List Nat, (Crypto.sha256 data).data.length = 64
        ∧ (Crypto.sha256 data).data.all isLowerHexDigit = true := by
  refine ⟨by decide, fun data => ⟨?_, ?_⟩⟩
  · show (Hex.hexOfBytes (SHA256.sha256Bytes data)).length = 64
    rw [length_hexOfBytes]
    simp [SHA256.sha256Bytes, digestBytes_length]
  · exact hexOfBytes_all_hex _ (digestBytes_lt _)

/-- C3 counterexample: the spec's test vector (63 hex characters, final `9`
dropped) is not the value `sha256_string` returns for `"hello world"`. -/
theorem sha256_spec_vector_mismatch :
    Crypto.sha256_string "hello world" ≠
      "b94d27b9934d3e08a52e52d7da7dabfac484efe37a5380ee9088f7ace2efcde" := by
  decide

/-- C4: whenever the entropy source succeeds with the `n`-byte buffer, the
generated token is exactly the first `n` characters of the standard padded
base64 encoding of those bytes, and it has exactly `n` characters. -/
theorem generate_token_take_encoded (rng : Crypto.Rng) (n : Nat) (bytes : List Nat)
    (hr : rng n = some bytes) (hl : bytes.length = n) :
    Crypto.generate_token rng n = .ok ⟨(Base64.encodeB64 bytes).take n⟩
    ∧ (String.mk ((Base64.encodeB64 bytes).take n)).length = n := by
  constructor
  · simp [Crypto.generate_token, Crypto.generate_random_bytes, hr, Except.map]
  · show ((Base64.encodeB64 bytes).take n).length = n
    rw [List.length_take, encodeB64_length, hl]
    omega

theorem generate_token_take_encoded_witness :
    Crypto.generate_token (fun k => some (List.replicate k 7)) 5 =
      .ok ⟨(Base64.encodeB64 (List.replicate 5 7)).take 5⟩
    ∧ (String.mk ((Base64.encodeB64 (List.replicate 5 7)).take 5)).length = 5 :=
  generate_token_take_encoded (fun k => some (List.replicate k 7)) 5
    (List.replicate 5 7) rfl (by decide)

/-- C5: verification accepts the MAC produced by signing with the same key and
data: `verify_hmac_sha256 key data mac` yields `Ok true` whenever
`hmac_sha256 key data` yields `Ok mac`. -/
theorem verify_accepts_signed (key data : List Nat) (mac : String)
    (h : Crypto.hmac_sha256 key data = .ok mac) :
    Crypto.verify_hmac_sha256 key data mac = .ok true := by
  have hm : mac = ⟨Hex.hexOfBytes (Crypto.hmacBytes key data)⟩ :=
    (Except.ok.injEq _ _ ▸ h).symm
  subst hm
  simp [Crypto.verify_hmac_sha256, Crypto.hmac_sha256, Except.map]

theorem verify_accepts_signed_witness :
    Crypto.verify_hmac_sha256 [1, 2, 3] [4, 5]
      ⟨Hex.hexOfBytes (Crypto.hmacBytes [1, 2, 3] [4, 5])⟩ = .ok true :=
  verify_accepts_signed [1, 2, 3] [4, 5] _ rfl

/-- C10: `hmac_sha256` and `verify_hmac_sha256` are total: for every key, data
and expected string each returns an `Ok` value, the error branch of their
`Result` type being unreachable. -/
theorem hmac_verify_total (key data : List Nat) (expected : String) :
    (∃ s, Crypto.hmac_sha256 key data = .ok s)
    ∧ (∃ b, Crypto.verify_hmac_sha256 key data expected = .ok b) :=
  ⟨⟨_, rfl⟩, ⟨_, rfl⟩⟩

/-- C6: every envelope produced by the health, crypto, store, fetch and
rejection handlers has exactly the fields matching its success flag
populated: payload without error when `success` is true, error without
payload when `success` is false. -/
theorem envelopes_wellformed :
    (∀ now version, envelopeOkB (Server.handle_health now version).body = true)
    ∧ (∀ rng req, envelopeOkB (Server.handle_crypto_operation rng req).body = true)
    ∧ (∀ key data st, envelopeOkB ((Server.handle_store_data key data st).2).body = true)
    ∧ (∀ key st, envelopeOkB (Server.handle_get_data key st).body = true)
    ∧ (∀ err, envelopeOkB (Server.handle_rejection err).body = true) := by
  refine ⟨fun now version => rfl, fun rng req => ?_, fun key data st => rfl,
    fun key st => ?_, fun err => ?_⟩
  · unfold Server.handle_crypto_operation
    cases Server.cryptoResult rng req <;> rfl
  · unfold Server.handle_get_data
    cases st key <;> rfl
  · cases err <;> rfl

/-- C7: a crypto request whose operation is none of `random_hex`,
`random_base64`, `sha256`, `token` is answered with the failure envelope
`Unknown operation: <name>`, and a `sha256` request without a data field with
the failure envelope `No data provided for hash`. -/
theorem crypto_dispatch_error_messages (rng : Crypto.Rng) (req : Server.CryptoRequest) :
    (req.operation ≠ "random_hex" → req.operation ≠ "random_base64" →
      req.operation ≠ "sha256" → req.operation ≠ "token" →
      Server.handle_crypto_operation rng req =
        Server.replyJson ⟨false, none, some ("Unknown operation: " ++ req.operation)⟩)
    ∧ (req.operation = "sha256" → req.data = none →
      Server.handle_crypto_operation rng req =
        Server.replyJson ⟨false, none, some "No data provided for hash"⟩) := by
  obtain ⟨op, d, len⟩ := req
  constructor
  · intro h1 h2 h3 h4
    simp_all [Server.handle_crypto_operation, Server.cryptoResult]
  · rintro rfl rfl
    simp [Server.handle_crypto_operation, Server.cryptoResult]

theorem crypto_dispatch_error_messages_witness :
    Server.handle_crypto_operation (fun _ => none) ⟨"bogus", none, none⟩ =
      Server.replyJson ⟨false, none, some "Unknown operation: bogus"⟩
    ∧ Server.handle_crypto_operation (fun _ => none) ⟨"sha256", none, some 5⟩ =
      Server.replyJson ⟨false, none, some "No data provided for hash"⟩ := by
  constructor
  · have h := (crypto_dispatch_error_messages (fun _ => none) ⟨"bogus", none, none⟩).1
      (by decide) (by decide) (by decide) (by decide)
    rw [h]; decide
  · exact (crypto_dispatch_error_messages (fun _ => none) ⟨"sha256", none, some 5⟩).2 rfl rfl

/-- C8: with the `length` field absent the dispatcher runs `random_hex` and
`random_base64` at length 16 and `token` at length 32; with `length` present
the given value is passed through unchanged. -/
theorem crypto_length_defaults (rng : Crypto.Rng) (data : Option String) :
    (Server.cryptoResult rng ⟨"random_hex", data, none⟩ =
        Crypto.generate_random_hex rng 16
      ∧ Server.cryptoResult rng ⟨"random_base64", data, none⟩ =
        Crypto.generate_random_base64 rng 16
      ∧ Server.cryptoResult rng ⟨"token", data, none⟩ =
        Crypto.generate_token rng 32)
    ∧ ∀ n : Nat,
      Server.cryptoResult rng ⟨"random_hex", data, some n⟩ =
        Crypto.generate_random_hex rng n
      ∧ Server.cryptoResult rng ⟨"random_base64", data, some n⟩ =
        Crypto.generate_random_base64 rng n
      ∧ Server.cryptoResult rng ⟨"token", data, some n⟩ =
        Crypto.generate_token rng n := by
  refine ⟨⟨?_, ?_, ?_⟩, fun n => ⟨?_, ?_, ?_⟩⟩ <;> simp [Server.cryptoResult]

/-- C2 (amended): fetching a never-stored key yields the failure envelope
`success:false`, `error:"No data found for key: <k>"` and no data payload;
the reply's HTTP status is 200, since `handle_get_data` serializes the
envelope with `warp::reply::json` and never attaches a not-found status. -/
theorem get_missing_key_failure (key : String) (st : Server.Store)
    (h : st key = none) :
    Server.handle_get_data key st =
      Server.replyJson ⟨false, none, some ("No data found for key: " ++ key)⟩
    ∧ (Server.handle_get_data key st).status = 200 := by
  simp [Server.handle_get_data, h, Server.replyJson]

theorem get_missing_key_failure_witness :
    Server.handle_get_data "missing-key" Server.emptyStore =
      Server.replyJson ⟨false, none, some "No data found for key: missing-key"⟩ := by
  have h := (get_missing_key_failure "missing-key" Server.emptyStore rfl).1
  rw [h]; decide

/-- C2 counterexample: before any store, `GET /data/missing-key` is answered
with HTTP status 200, not the 404 the claim asserts — the handler never sets
a status on the JSON reply. -/
theorem get_missing_key_status_not_404 :
    (Server.handle_get_data "missing-key" Server.emptyStore).status = 200
    ∧ (Server.handle_get_data "missing-key" Server.emptyStore).status ≠ 404 := by
  constructor <;> decide

theorem isCont_iff (b : Nat) : Utf8.isCont b = true ↔ 0x80 ≤ b ∧ b ≤ 0xBF := by
  simp [Utf8.isCont]

theorem cont3_iff (b1 b2 : Nat) : Utf8.cont3 b1 b2 = true ↔
    ((b1 = 0xE0 ∧ 0xA0 ≤ b2 ∧ b2 ≤ 0xBF) ∨ (b1 = 0xED ∧ 0x80 ≤ b2 ∧ b2 ≤ 0x9F) ∨
      (b1 ≠ 0xE0 ∧ b1 ≠ 0xED ∧ 0x80 ≤ b2 ∧ b2 ≤ 0xBF)) := by
  unfold Utf8.cont3 Utf8.isCont
  split_ifs with h1 h2 <;> simp_all

theorem cont4_iff (b1 b2 : Nat) : Utf8.cont4 b1 b2 = true ↔
    ((b1 = 0xF0 ∧ 0x90 ≤ b2 ∧ b2 ≤ 0xBF) ∨ (b1 = 0xF4 ∧ 0x80 ≤ b2 ∧ b2 ≤ 0x8F) ∨
      (b1 ≠ 0xF0 ∧ b1 ≠ 0xF4 ∧ 0x80 ≤ b2 ∧ b2 ≤ 0xBF)) := by
  unfold Utf8.cont4 Utf8.isCont
  split_ifs with h1 h2 <;> simp_all

theorem step_spec (b1 : Nat) (t1 : List Nat) :
    Utf8.isScalar (Utf8.step b1 t1).1 = true ∧
    ((Utf8.step b1 t1).2.2 = true →
      Utf8.encodeChar (Utf8.step b1 t1).1 ++ (Utf8.step b1 t1).2.1 = b1 :: t1) ∧
    ((Utf8.step b1 t1).2.2 = false → (Utf8.step b1 t1).1 = 0xFFFD) := by
  unfold Utf8.step
  repeat' split
  all_goals refine ⟨?_, fun hf => ?_, fun hf => ?_⟩
  all_goals simp_all [Utf8.isScalar, isCont_iff, cont3_iff, cont4_iff]
  all_goals try omega
  all_goals (simp only [Utf8.encodeChar]; split_ifs <;> simp_all [List.cons_append] <;> omega)

theorem valid_roundtrip (bs : List Nat) (h : Utf8.validUtf8 bs = true) :
    Utf8.encode (Utf8.decodeLossy bs) = bs := by
  match bs with
  | [] => simp [Utf8.decodeLossy, Utf8.encode]
  | b1 :: t1 =>
    rw [Utf8.validUtf8, Bool.and_eq_true] at h
    rw [Utf8.decodeLossy, Utf8.encode,
      valid_roundtrip (Utf8.step b1 t1).2.1 h.2,
      (step_spec b1 t1).2.1 h.1]
termination_by bs.length
decreasing_by simp only [List.length_cons]; exact Nat.lt_succ_of_le (step_length _ _)

theorem decodeLossy_scalars (bs : List Nat) :
    (Utf8.decodeLossy bs).all Utf8.isScalar = true := by
  match bs with
  | [] => simp [Utf8.decodeLossy]
  | b1 :: t1 =>
    rw [Utf8.decodeLossy, List.all_cons, Bool.and_eq_true]
    exact ⟨(step_spec b1 t1).1, decodeLossy_scalars (Utf8.step b1 t1).2.1⟩
termination_by bs.length
decreasing_by simp only [List.length_cons]; exact Nat.lt_succ_of_le (step_length _ _)

theorem invalid_has_replacement (bs : List Nat) (h : Utf8.validUtf8 bs = false) :
    0xFFFD ∈ Utf8.decodeLossy bs := by
  match bs with
  | [] => rw [Utf8.validUtf8] at h; cases h
  | b1 :: t1 =>
    rw [Utf8.validUtf8] at h
    rw [Utf8.decodeLossy]
    cases hf : (Utf8.step b1 t1).2.2 with
    | false => rw [(step_spec b1 t1).2.2 hf]; exact List.mem_cons_self _ _
    | true =>
      rw [hf, Bool.true_and] at h
      exact List.mem_cons_of_mem _ (invalid_has_replacement (Utf8.step b1 t1).2.1 h)
termination_by bs.length
decreasing_by simp only [List.length_cons]; exact Nat.lt_succ_of_le (step_length _ _)

theorem step_encode (c : Nat) (hc : Utf8.isScalar c = true) (rest : List Nat) :
    ∃ b t, Utf8.encodeChar c = b :: t ∧ Utf8.step b (t ++ rest) = (c, rest, true) := by
  simp only [Utf8.isScalar, Bool.and_eq_true, Bool.not_eq_true',
    Bool.and_eq_false_iff, decide_eq_true_eq, decide_eq_false_iff_not] at hc
  by_cases h1 : c ≤ 0x7F
  · refine ⟨c, [], by simp [Utf8.encodeChar, h1], ?_⟩
    simp [Utf8.step, h1]
  · by_cases h2 : c ≤ 0x7FF
    · refine ⟨0xC0 + c / 0x40, [0x80 + c % 0x40], by simp [Utf8.encodeChar, h1, h2], ?_⟩
      unfold Utf8.step
      simp only [List.cons_append, List.nil_append]
      rw [if_neg (by omega), if_pos (by omega), if_pos (by rw [isCont_iff]; omega)]
      simp only [Prod.mk.injEq, true_and, and_true, eq_self_iff_true]
      omega
    · by_cases h3 : c ≤ 0xFFFF
      · refine ⟨0xE0 + c / 0x1000, [0x80 + (c / 0x40) % 0x40, 0x80 + c % 0x40],
          by simp [Utf8.encodeChar, h1, h2, h3], ?_⟩
        unfold Utf8.step
        simp only [List.cons_append, List.nil_append]
        rw [if_neg (by omega), if_neg (by omega), if_pos (by omega),
          if_pos (by rw [cont3_iff]; omega), if_pos (by rw [isCont_iff]; omega)]
        simp only [Prod.mk.injEq, true_and, and_true, eq_self_iff_true]
        omega
      · refine ⟨0xF0 + c / 0x40000,
          [0x80 + (c / 0x1000) % 0x40, 0x80 + (c / 0x40) % 0x40, 0x80 + c % 0x40],
          by simp [Utf8.encodeChar, h1, h2, h3], ?_⟩
        unfold Utf8.step
        simp only [List.cons_append, List.nil_append]
        rw [if_neg (by omega), if_neg (by omega), if_neg (by omega),
          if_pos (by omega), if_pos (by rw [cont4_iff]; omega),
          if_pos (by rw [isCont_iff]; omega), if_pos (by rw [isCont_iff]; omega)]
        simp only [Prod.mk.injEq, true_and, and_true, eq_self_iff_true]
        omega

theorem encode_valid (cs : List Nat) (h : cs.all Utf8.isScalar = true) :
    Utf8.validUtf8 (Utf8.encode cs) = true := by
  induction cs with
  | nil => simp [Utf8.encode, Utf8.validUtf8]
  | cons c cs ih =>
    rw [List.all_cons, Bool.and_eq_true] at h
    obtain ⟨b, t, he, hs⟩ := step_encode c h.1 (Utf8.encode cs)
    show Utf8.validUtf8 (Utf8.encodeChar c ++ Utf8.encode cs) = true
    rw [he, List.cons_append, Utf8.validUtf8, hs]
    simpa using ih h.2

theorem invalid_not_roundtrip (bs : List Nat) (h : Utf8.validUtf8 bs = false) :
    Utf8.encode (Utf8.decodeLossy bs) ≠ bs := by
  intro heq
  have hv := encode_valid (Utf8.decodeLossy bs) (decodeLossy_scalars bs)
  rw [heq, h] at hv
  cases hv

/-- C9: the value `handle_store_data` inserts into the map is the lossy UTF-8
decoding of the raw body bytes — a sequence of Unicode scalar values, hence a
valid UTF-8 string; any body that is not valid UTF-8 is stored with U+FFFD
replacement characters, so its raw bytes are not preserved. -/
theorem store_value_lossy (key : String) (body : List Nat) (st : Server.Store) :
    (Server.handle_store_data key body st).1 key = some (Utf8.decodeLossy body)
    ∧ (Utf8.decodeLossy body).all Utf8.isScalar = true
    ∧ (Utf8.validUtf8 body = false →
        0xFFFD ∈ Utf8.decodeLossy body ∧
        Utf8.encode (Utf8.decodeLossy body) ≠ body) := by
  refine ⟨?_, decodeLossy_scalars body,
    fun hb => ⟨invalid_has_replacement body hb, invalid_not_roundtrip body hb⟩⟩
  simp [Server.handle_store_data, Server.insertStore]

theorem store_value_lossy_witness :
    (Server.handle_store_data "k" [0xFF] Server.emptyStore).1 "k" =
      some (Utf8.decodeLossy [0xFF])
    ∧ 0xFFFD ∈ Utf8.decodeLossy [0xFF]
    ∧ Utf8.encode (Utf8.decodeLossy [0xFF]) ≠ [0xFF] := by
  have h := store_value_lossy "k" [0xFF] Server.emptyStore
  have hv : Utf8.validUtf8 [0xFF] = false := by
    simp [Utf8.validUtf8, Utf8.step]
  exact ⟨h.1, (h.2.2 hv).1, (h.2.2 hv).2⟩

/-- C1 (amended): for every key and every body `v` that is valid UTF-8,
storing then fetching returns exactly `v`: the fetched value is the decoding
of `v` and its UTF-8 encoding is `v` byte-for-byte.  For bodies that are not
valid UTF-8 the handler stores the lossy decoding instead and the original
bytes are not returned (see the counterexample). -/
theorem store_get_roundtrip (key : String) (v : List Nat) (st : Server.Store)
    (hv : Utf8.validUtf8 v = true) :
    Server.handle_get_data key (Server.handle_store_data key v st).1 =
      Server.replyJson ⟨true, some (Utf8.decodeLossy v), none⟩
    ∧ Utf8.encode (Utf8.decodeLossy v) = v := by
  refine ⟨?_, valid_roundtrip v hv⟩
  simp [Server.handle_get_data, Server.handle_store_data, Server.insertStore]

theorem store_get_roundtrip_witness :
    Utf8.validUtf8 [104, 105] = true ∧
    Utf8.encode (Utf8.decodeLossy [104, 105]) = [104, 105] :=
  ⟨by simp [Utf8.validUtf8, Utf8.step],
    (store_get_roundtrip "k" [104, 105] Server.emptyStore
      (by simp [Utf8.validUtf8, Utf8.step])).2⟩

/-- C1 counterexample: storing the single byte `0xFF` (not valid UTF-8) under
key `"k"` and fetching it back returns the replacement character U+FFFD,
whose UTF-8 bytes are `EF BF BD` — not the stored body `FF`. -/
theorem store_get_not_byte_exact :
    (Server.handle_get_data "k"
        (Server.handle_store_data "k" [0xFF] Server.emptyStore).1).body.data =
      some [0xFFFD]
    ∧ Utf8.encode [0xFFFD] ≠ [0xFF] := by
  constructor
  · simp [Server.handle_get_data, Server.handle_store_data, Server.insertStore,
      Server.replyJson, Utf8.decodeLossy, Utf8.step]
  · decide
